import Mathlib

/-!
Verification of the MCQ-Generator repository (`src/main.py`).

The development shallowly embeds the pure logic of `main.py`:

* the whitespace normalizer `clean_string` (Python `re.sub(r'\s+', ' ', text)`
  followed by `str.strip()`), duplicated verbatim in the three loader classes;
* the SHA-256 fingerprinter (`hashlib.sha256(text.encode()).hexdigest()`),
  implemented here in full over byte lists, together with UTF-8
  encoding/decoding as used by `.encode()` / `.decode('utf-8')`;
* the three loaders `PdfFileLoader.load_data`, `TextFileLoader.load_data`,
  `UrlLoader.load_data` (external acquisition/extraction steps — PyMuPDF page
  extraction, HTTP fetch, HTML text extraction — are modelled by taking their
  results as inputs);
* the dispatcher `generate_mcqs_from_data`, the adapter `generate_mcq`
  (the external educhain engine is a function parameter), and the display
  formatter `format_mcqs`;
* the name-resolution environment of the Streamlit `main` function's URL
  branch, which references the undefined name `learning_objective`.
-/

/-! ## Whitespace model

Python's `re` module (with `str` patterns) and `str.strip()` / `str.isspace()`
agree on the set of whitespace characters: the ASCII whitespace controls,
space, the C1 controls U+001C–U+001F, NEL, NBSP, and the Unicode space
separators. `isPySpace` is that set. -/

def isPySpace (c : Char) : Bool :=
  let n := c.toNat
  (9 ≤ n && n ≤ 13) || (28 ≤ n && n ≤ 31) || n == 32 || n == 133 || n == 160 ||
  n == 0x1680 || (0x2000 ≤ n && n ≤ 0x200a) || n == 0x2028 || n == 0x2029 ||
  n == 0x202f || n == 0x205f || n == 0x3000

theorem length_dropWhile_le (p : Char → Bool) :
    ∀ l : List Char, (l.dropWhile p).length ≤ l.length := by
  intro l
  induction l with
  | nil => simp [List.dropWhile]
  | cons c cs ih =>
    by_cases h : p c
    · simpa [List.dropWhile, h] using Nat.le_succ_of_le ih
    · simp [List.dropWhile, h]

/-- `re.sub(r'\s+', ' ', text)` on the character list: every maximal run of
whitespace characters is replaced by a single space.  Stated here by a
structurally recursive right fold (a whitespace character merges with the
replacement space already produced for the rest of its run); the lemmas
`collapseWs_cons_space` and `collapseWs_cons_nonspace` below prove that this
is exactly the maximal-run replacement. -/
def collapseWs : List Char → List Char
  | [] => []
  | c :: cs =>
    let rest := collapseWs cs
    if isPySpace c then
      if rest.head? = some ' ' then rest else ' ' :: rest
    else c :: rest

theorem collapseWs_cons_nonspace {c : Char} (h : isPySpace c = false)
    (cs : List Char) : collapseWs (c :: cs) = c :: collapseWs cs := by
  simp [collapseWs, h]

theorem collapseWs_cons (c : Char) (cs : List Char) :
    collapseWs (c :: cs) =
      if isPySpace c then
        if (collapseWs cs).head? = some ' ' then collapseWs cs
        else ' ' :: collapseWs cs
      else c :: collapseWs cs := rfl

theorem collapseWs_cons_space :
    ∀ (cs : List Char) {c : Char}, isPySpace c = true →
      collapseWs (c :: cs) = ' ' :: collapseWs (cs.dropWhile isPySpace) := by
  intro cs
  induction cs with
  | nil =>
    intro c h
    simp [collapseWs, h, List.dropWhile]
  | cons d ds ih =>
    intro c h
    rw [collapseWs_cons]
    by_cases hd : isPySpace d
    · rw [ih hd]
      simp [h, hd]
    · have hd' : isPySpace d = false := by simpa using hd
      have hdne : d ≠ ' ' := by
        intro e
        rw [e] at hd'
        exact absurd hd' (by decide)
      rw [collapseWs_cons_nonspace hd' ds]
      simp [h, hd', hdne, collapseWs_cons_nonspace hd']

/-- `str.lstrip()` on the character list. -/
def lstripWs (l : List Char) : List Char := l.dropWhile isPySpace

/-- `str.rstrip()` on the character list. -/
def rstripWs (l : List Char) : List Char := (l.reverse.dropWhile isPySpace).reverse

/-- `str.strip()` on the character list. -/
def stripWs (l : List Char) : List Char := rstripWs (lstripWs l)

/-- The shared normalizer body: `text = re.sub(r'\s+', ' ', text)` then
`text = text.strip()` (src/main.py lines 43-46, 59-62, 77-80). -/
def cleanStr (s : String) : String := ⟨stripWs (collapseWs s.data)⟩

/-! ## Specification-side normalizer

The spec describes the Normalizer as: "a string with every maximal run of
whitespace characters replaced by a single space character, and
leading/trailing whitespace removed".  Equivalently, the maximal runs of
non-whitespace characters (the words), joined by single spaces; `splitWords`
and `normalizeSpec` below formalize that description directly. -/

/-- The maximal runs of non-whitespace characters of a string, in order. -/
def splitWords : List Char → List (List Char)
  | [] => []
  | c :: cs =>
    if isPySpace c then splitWords cs
    else (c :: cs.takeWhile (fun d => !isPySpace d)) ::
      splitWords (cs.dropWhile (fun d => !isPySpace d))
termination_by l => l.length
decreasing_by
  · simp
  · simpa using Nat.lt_succ_of_le (length_dropWhile_le (fun d => !isPySpace d) cs)

/-- Single spaces interleaved between words. -/
def intercalateSp : List (List Char) → List Char
  | [] => []
  | [w] => w
  | w :: ws => w ++ ' ' :: intercalateSp ws

/-- The Normalizer as the spec states it: every maximal whitespace run
becomes a single space and the ends are trimmed, i.e. the words joined by
single spaces. -/
def normalizeSpec (s : String) : String := ⟨intercalateSp (splitWords s.data)⟩

example : cleanStr "a   b\n\tc" = "a b c" := by decide
example : cleanStr "" = "" := by decide
example : cleanStr "  x  " = "x" := by decide

/-! ### Equations for `splitWords` and `intercalateSp` -/

set_option maxHeartbeats 1600000 in
theorem splitWords_nil : splitWords [] = [] := by rw [splitWords.eq_def]

theorem splitWords_cons_space {c : Char} (h : isPySpace c = true)
    (cs : List Char) : splitWords (c :: cs) = splitWords cs := by
  rw [splitWords.eq_def]
  simp [h]

theorem splitWords_cons_nonspace {c : Char} (h : isPySpace c = false)
    (cs : List Char) :
    splitWords (c :: cs) =
      (c :: cs.takeWhile (fun d => !isPySpace d)) ::
        splitWords (cs.dropWhile (fun d => !isPySpace d)) := by
  rw [splitWords.eq_def]
  simp [h]

theorem intercalateSp_pair (w x : List Char) (xs : List (List Char)) :
    intercalateSp (w :: x :: xs) = w ++ ' ' :: intercalateSp (x :: xs) := rfl

/-! ### Strip lemmas -/

theorem dropWhile_eq_self_of_all {p : Char → Bool} :
    ∀ {l : List Char}, (∀ c ∈ l, p c = false) → l.dropWhile p = l := by
  intro l h
  cases l with
  | nil => rfl
  | cons c cs => simp [List.dropWhile_cons, h c (by simp)]

theorem dropWhile_append_of_ne_nil {p : Char → Bool} :
    ∀ (a b : List Char), a.dropWhile p ≠ [] →
      (a ++ b).dropWhile p = a.dropWhile p ++ b := by
  intro a
  induction a with
  | nil =>
    intro b h
    exact absurd rfl h
  | cons c cs ih =>
    intro b h
    by_cases hc : p c
    · rw [List.dropWhile_cons] at h
      simp only [hc, if_true] at h
      simp only [List.cons_append, List.dropWhile_cons, hc, if_true]
      rw [ih b h]
    · simp [List.dropWhile_cons, hc]

theorem lstripWs_cons_nonspace {c : Char} (h : isPySpace c = false)
    (l : List Char) : lstripWs (c :: l) = c :: l := by
  simp [lstripWs, List.dropWhile_cons, h]

theorem rstripWs_eq_self {l : List Char}
    (h : ∀ c ∈ l, isPySpace c = false) : rstripWs l = l := by
  have : l.reverse.dropWhile isPySpace = l.reverse :=
    dropWhile_eq_self_of_all (fun c hc => h c (List.mem_reverse.mp hc))
  simp [rstripWs, this]

theorem rstripWs_append_space (u : List Char) :
    rstripWs (u ++ [' ']) = rstripWs u := by
  have hsp : isPySpace ' ' = true := by decide
  simp [rstripWs, List.reverse_append, List.dropWhile_cons, hsp]

theorem rstripWs_append {u v : List Char} (h : rstripWs v ≠ []) :
    rstripWs (u ++ v) = u ++ rstripWs v := by
  have hv : v.reverse.dropWhile isPySpace ≠ [] := by
    intro e
    apply h
    simp [rstripWs, e]
  rw [rstripWs, List.reverse_append, dropWhile_append_of_ne_nil _ _ hv]
  simp [rstripWs]

theorem rstripWs_ne_nil_of_mem {c : Char} {l : List Char} (hc : c ∈ l)
    (h : isPySpace c = false) : rstripWs l ≠ [] := by
  intro e
  have : l.reverse.dropWhile isPySpace = [] := by
    have := congrArg List.reverse e
    simpa [rstripWs] using this
  have hall := List.dropWhile_eq_nil_iff.mp this
  have := hall c (List.mem_reverse.mpr hc)
  rw [h] at this
  exact absurd this (by decide)

theorem stripWs_of_all_nonspace {l : List Char}
    (h : ∀ c ∈ l, isPySpace c = false) : stripWs l = l := by
  rw [stripWs, lstripWs, dropWhile_eq_self_of_all h, rstripWs_eq_self h]

/-! ### Word lemmas -/

theorem collapseWs_append_word :
    ∀ {w : List Char}, (∀ c ∈ w, isPySpace c = false) →
      ∀ r, collapseWs (w ++ r) = w ++ collapseWs r := by
  intro w
  induction w with
  | nil => intro _ r; rfl
  | cons c cs ih =>
    intro h r
    rw [List.cons_append, collapseWs_cons_nonspace (h c (by simp)),
      ih (fun d hd => h d (List.mem_cons_of_mem _ hd)) r]
    rfl

theorem splitWords_dropWhile :
    ∀ l : List Char, splitWords (l.dropWhile isPySpace) = splitWords l := by
  intro l
  induction l with
  | nil => rfl
  | cons c cs ih =>
    by_cases h : isPySpace c
    · rw [List.dropWhile_cons]
      simp only [h, if_true]
      rw [ih, splitWords_cons_space h]
    · simp [List.dropWhile_cons, h]

theorem head_of_dropWhile_eq_cons {p : Char → Bool} :
    ∀ {x : List Char} {d : Char} {t : List Char},
      x.dropWhile p = d :: t → p d = false := by
  intro x
  induction x with
  | nil =>
    intro d t h
    cases h
  | cons a as ih =>
    intro d t h
    rw [List.dropWhile_cons] at h
    by_cases ha : p a
    · rw [if_pos ha] at h
      exact ih h
    · rw [if_neg ha] at h
      cases h
      simpa using ha

/-! ### The normalizer agrees with the spec's description -/

theorem clean_eq_spec_aux :
    ∀ (n : Nat) (l : List Char), l.length ≤ n →
      stripWs (collapseWs l) = intercalateSp (splitWords l) := by
  intro n
  induction n with
  | zero =>
    intro l hl
    have hnil : l = [] := List.eq_nil_of_length_eq_zero (Nat.le_zero.mp hl)
    subst hnil
    simp [collapseWs, stripWs, lstripWs, rstripWs, splitWords_nil, intercalateSp]
  | succ n ih =>
    intro l hl
    cases l with
    | nil =>
      simp [collapseWs, stripWs, lstripWs, rstripWs, splitWords_nil, intercalateSp]
    | cons c cs =>
      have hcs : cs.length ≤ n := by
        simpa using Nat.lt_succ_iff.mp (by simpa using Nat.lt_of_lt_of_le (Nat.lt_succ_self _) (by simpa using hl))
      by_cases hc : isPySpace c
      · rw [collapseWs_cons_space cs hc]
        have hdrop : stripWs (' ' :: collapseWs (cs.dropWhile isPySpace)) =
            stripWs (collapseWs (cs.dropWhile isPySpace)) := by
          have hsp : isPySpace ' ' = true := by decide
          simp [stripWs, lstripWs, List.dropWhile_cons, hsp]
        rw [hdrop, ih _ (le_trans (length_dropWhile_le _ cs) hcs),
          splitWords_dropWhile, splitWords_cons_space hc]
      · have hc' : isPySpace c = false := by simpa using hc
        -- split cs into the rest of the word and the remainder
        obtain ⟨wrest, r, hwrest, hr, hsplit⟩ :
            ∃ wrest r, wrest = cs.takeWhile (fun d => !isPySpace d) ∧
              r = cs.dropWhile (fun d => !isPySpace d) ∧ wrest ++ r = cs :=
          ⟨_, _, rfl, rfl, List.takeWhile_append_dropWhile _ _⟩
        have hwall : ∀ d ∈ (c :: wrest), isPySpace d = false := by
          intro d hd
          rcases List.mem_cons.mp hd with he | hm
          · subst he; exact hc'
          · rw [hwrest] at hm
            have := List.mem_takeWhile_imp hm
            simpa using this
        have hcollapse : collapseWs (c :: cs) = (c :: wrest) ++ collapseWs r := by
          conv_lhs => rw [← hsplit]
          exact collapseWs_append_word hwall r
        have hsw : splitWords (c :: cs) = (c :: wrest) :: splitWords r := by
          rw [splitWords_cons_nonspace hc' cs, ← hwrest, ← hr]
        have hrlen : r.length ≤ cs.length := by
          rw [hr]; exact length_dropWhile_le _ cs
        rw [hcollapse, hsw]
        cases hre : r with
        | nil =>
          rw [show collapseWs [] = [] from rfl, List.append_nil,
            stripWs_of_all_nonspace hwall, splitWords_nil]
          rfl
        | cons d r' =>
          have hd : isPySpace d = true := by
            have : cs.dropWhile (fun d => !isPySpace d) = d :: r' := by
              rw [← hr, hre]
            have := head_of_dropWhile_eq_cons this
            simpa using this
          have hr'len : r'.length < cs.length := by
            have : r.length = r'.length + 1 := by rw [hre]; rfl
            omega
          rw [collapseWs_cons_space r' hd]
          obtain ⟨r2, hr2⟩ : ∃ r2, r2 = r'.dropWhile isPySpace := ⟨_, rfl⟩
          rw [← hr2]
          have hr2len : r2.length ≤ n := by
            have h1 : r2.length ≤ r'.length := by
              rw [hr2]; exact length_dropWhile_le isPySpace r'
            omega
          have hswr : splitWords (d :: r') = splitWords r2 := by
            rw [splitWords_cons_space hd, ← splitWords_dropWhile r', ← hr2]
          rw [hswr]
          cases hr2e : r2 with
          | nil =>
            rw [show collapseWs [] = [] from rfl, splitWords_nil]
            have hl1 : ((c :: wrest) ++ [' '] : List Char) = c :: (wrest ++ [' ']) := rfl
            calc stripWs ((c :: wrest) ++ [' '])
                = rstripWs (lstripWs (c :: (wrest ++ [' ']))) := by rw [stripWs, hl1]
              _ = rstripWs (c :: (wrest ++ [' '])) := by
                    rw [lstripWs_cons_nonspace hc']
              _ = rstripWs ((c :: wrest) ++ [' ']) := by rw [hl1]
              _ = rstripWs (c :: wrest) := rstripWs_append_space _
              _ = c :: wrest := rstripWs_eq_self hwall
              _ = intercalateSp [c :: wrest] := rfl
          | cons e r3 =>
            have he : isPySpace e = false := by
              have : r'.dropWhile isPySpace = e :: r3 := by rw [← hr2, hr2e]
              exact head_of_dropWhile_eq_cons this
            have hihr2 : stripWs (collapseWs (e :: r3)) =
                intercalateSp (splitWords (e :: r3)) := by
              rw [← hr2e]
              exact ih r2 hr2len
            have hswne : splitWords (e :: r3) =
                (e :: r3.takeWhile (fun d => !isPySpace d)) ::
                  splitWords (r3.dropWhile (fun d => !isPySpace d)) :=
              splitWords_cons_nonspace he r3
            have hcr2 : collapseWs (e :: r3) = e :: collapseWs r3 :=
              collapseWs_cons_nonspace he r3
            rw [hswne, intercalateSp_pair, ← hswne, ← hihr2]
            have hlstrip : stripWs ((c :: wrest) ++ ' ' :: collapseWs (e :: r3)) =
                rstripWs ((c :: wrest) ++ ' ' :: collapseWs (e :: r3)) := by
              rw [stripWs]
              rw [show ((c :: wrest) ++ ' ' :: collapseWs (e :: r3) : List Char) =
                c :: (wrest ++ ' ' :: collapseWs (e :: r3)) from rfl]
              rw [lstripWs_cons_nonspace hc']
            have hlstrip2 : stripWs (collapseWs (e :: r3)) =
                rstripWs (collapseWs (e :: r3)) := by
              rw [stripWs, hcr2, lstripWs_cons_nonspace he, ← hcr2]
            rw [hlstrip, hlstrip2]
            have hmem : e ∈ collapseWs (e :: r3) := by rw [hcr2]; simp
            have hrne : rstripWs (collapseWs (e :: r3)) ≠ [] :=
              rstripWs_ne_nil_of_mem hmem he
            rw [show ((c :: wrest) ++ ' ' :: collapseWs (e :: r3) : List Char) =
              ((c :: wrest) ++ [' ']) ++ collapseWs (e :: r3) from by simp]
            rw [rstripWs_append hrne]
            simp

theorem clean_eq_spec (l : List Char) :
    stripWs (collapseWs l) = intercalateSp (splitWords l) :=
  clean_eq_spec_aux l.length l (le_refl _)

theorem cleanStr_eq_normalizeSpec (s : String) : cleanStr s = normalizeSpec s :=
  congrArg String.mk (clean_eq_spec s.data)

/-! ### Idempotence of the normalizer -/

theorem takeWhile_append_of_all {p : Char → Bool} :
    ∀ {a : List Char}, (∀ c ∈ a, p c = true) → ∀ b : List Char,
      (a ++ b).takeWhile p = a ++ b.takeWhile p := by
  intro a
  induction a with
  | nil => intro _ b; rfl
  | cons c cs ih =>
    intro h b
    rw [List.cons_append, List.takeWhile_cons]
    simp only [h c (by simp), if_true]
    rw [ih (fun d hd => h d (List.mem_cons_of_mem _ hd)) b]
    rfl

theorem dropWhile_append_of_all {p : Char → Bool} :
    ∀ {a : List Char}, (∀ c ∈ a, p c = true) → ∀ b : List Char,
      (a ++ b).dropWhile p = b.dropWhile p := by
  intro a
  induction a with
  | nil => intro _ b; rfl
  | cons c cs ih =>
    intro h b
    rw [List.cons_append, List.dropWhile_cons]
    simp only [h c (by simp), if_true]
    exact ih (fun d hd => h d (List.mem_cons_of_mem _ hd)) b

/-- Every word produced by `splitWords` is nonempty and whitespace-free. -/
theorem splitWords_good_aux :
    ∀ (n : Nat) (l : List Char), l.length ≤ n →
      ∀ w ∈ splitWords l, w ≠ [] ∧ ∀ c ∈ w, isPySpace c = false := by
  intro n
  induction n with
  | zero =>
    intro l hl
    have hnil : l = [] := List.eq_nil_of_length_eq_zero (Nat.le_zero.mp hl)
    subst hnil
    rw [splitWords_nil]
    intro w hw
    cases hw
  | succ n ih =>
    intro l hl
    cases l with
    | nil =>
      rw [splitWords_nil]
      intro w hw
      cases hw
    | cons c cs =>
      have hcs : cs.length ≤ n := by
        have : (c :: cs).length = cs.length + 1 := rfl
        omega
      by_cases hc : isPySpace c
      · rw [splitWords_cons_space hc]
        exact ih cs hcs
      · have hc' : isPySpace c = false := by simpa using hc
        rw [splitWords_cons_nonspace hc']
        intro w hw
        rcases List.mem_cons.mp hw with he | hm
        · subst he
          constructor
          · simp
          · intro d hd
            rcases List.mem_cons.mp hd with he2 | hm2
            · subst he2; exact hc'
            · have := List.mem_takeWhile_imp hm2
              simpa using this
        · have hlen : (cs.dropWhile (fun d => !isPySpace d)).length ≤ n :=
            le_trans (length_dropWhile_le _ cs) hcs
          exact ih _ hlen w hm

theorem splitWords_good (l : List Char) :
    ∀ w ∈ splitWords l, w ≠ [] ∧ ∀ c ∈ w, isPySpace c = false :=
  splitWords_good_aux l.length l (le_refl _)

/-- Splitting the single-space interleaving of good words recovers the words. -/
theorem splitWords_intercalateSp :
    ∀ ws : List (List Char),
      (∀ w ∈ ws, w ≠ [] ∧ ∀ c ∈ w, isPySpace c = false) →
      splitWords (intercalateSp ws) = ws := by
  intro ws
  induction ws with
  | nil =>
    intro _
    exact splitWords_nil
  | cons w ws' ih =>
    intro h
    obtain ⟨hwne, hwall⟩ := h w (by simp)
    obtain ⟨c, wr, hw⟩ : ∃ c wr, w = c :: wr := by
      cases w with
      | nil => exact absurd rfl hwne
      | cons c wr => exact ⟨c, wr, rfl⟩
    have hc : isPySpace c = false := hwall c (by rw [hw]; simp)
    have hwr : ∀ d ∈ wr, (!isPySpace d) = true := by
      intro d hd
      have := hwall d (by rw [hw]; simp [hd])
      simp [this]
    cases ws' with
    | nil =>
      show splitWords w = [w]
      rw [hw, splitWords_cons_nonspace hc,
        List.takeWhile_eq_self_iff.mpr hwr,
        List.dropWhile_eq_nil_iff.mpr hwr, splitWords_nil]
    | cons w2 ws'' =>
      rw [intercalateSp_pair, hw, List.cons_append,
        splitWords_cons_nonspace hc,
        takeWhile_append_of_all hwr,
        dropWhile_append_of_all hwr]
      have hsp : isPySpace ' ' = true := by decide
      rw [List.takeWhile_cons]
      simp only [hsp, Bool.not_true, Bool.false_eq_true, if_false]
      rw [List.dropWhile_cons]
      simp only [hsp, Bool.not_true, Bool.false_eq_true, if_false]
      rw [splitWords_cons_space hsp,
        ih (fun v hv => h v (List.mem_cons_of_mem _ hv)), List.append_nil, ← hw]

theorem cleanStr_idempotent (s : String) :
    cleanStr (cleanStr s) = cleanStr s := by
  rw [cleanStr_eq_normalizeSpec s, cleanStr_eq_normalizeSpec (normalizeSpec s)]
  show String.mk (intercalateSp (splitWords (intercalateSp (splitWords s.data)))) =
    String.mk (intercalateSp (splitWords s.data))
  rw [splitWords_intercalateSp (splitWords s.data) (splitWords_good s.data)]

/-! ## SHA-256 and UTF-8

`hashlib.sha256(text.encode()).hexdigest()` is modelled by an executable
FIPS 180-4 SHA-256 over byte lists together with the UTF-8 encoding of
`str.encode()`; the standard test vectors are checked below. -/

def w32 (x : Nat) : Nat := x % 4294967296

def rotr32 (n x : Nat) : Nat := w32 ((x >>> n) ||| (x <<< (32 - n)))

def ch32 (e f g : Nat) : Nat := (e &&& f) ^^^ ((e ^^^ 4294967295) &&& g)

def maj32 (a b c : Nat) : Nat := (a &&& b) ^^^ (a &&& c) ^^^ (b &&& c)

def bigS0 (x : Nat) : Nat := rotr32 2 x ^^^ rotr32 13 x ^^^ rotr32 22 x

def bigS1 (x : Nat) : Nat := rotr32 6 x ^^^ rotr32 11 x ^^^ rotr32 25 x

def smallS0 (x : Nat) : Nat := rotr32 7 x ^^^ rotr32 18 x ^^^ (x >>> 3)

def smallS1 (x : Nat) : Nat := rotr32 17 x ^^^ rotr32 19 x ^^^ (x >>> 10)

def sha256K : List Nat :=
  [1116352408, 1899447441, 3049323471, 3921009573, 961987163, 1508970993,
   2453635748, 2870763221, 3624381080, 310598401, 607225278, 1426881987,
   1925078388, 2162078206, 2614888103, 3248222580, 3835390401, 4022224774,
   264347078, 604807628, 770255983, 1249150122, 1555081692, 1996064986,
   2554220882, 2821834349, 2952996808, 3210313671, 3336571891, 3584528711,
   113926993, 338241895, 666307205, 773529912, 1294757372, 1396182291,
   1695183700, 1986661051, 2177026350, 2456956037, 2730485921, 2820302411,
   3259730800, 3345764771, 3516065817, 3600352804, 4094571909, 275423344,
   430227734, 506948616, 659060556, 883997877, 958139571, 1322822218,
   1537002063, 1747873779, 1955562222, 2024104815, 2227730452, 2361852424,
   2428436474, 2756734187, 3204031479, 3329325298]

def sha256H0 : List Nat :=
  [1779033703, 3144134277, 1013904242, 2773480762,
   1359893119, 2600822924, 528734635, 1541459225]

/-- Big-endian byte decomposition of `v` into `n` bytes. -/
def natToBytesBE : Nat → Nat → List Nat
  | 0, _ => []
  | n + 1, v => natToBytesBE n (v / 256) ++ [v % 256]

/-- FIPS 180-4 padding: append `0x80`, zeros to 56 mod 64, then the 64-bit
big-endian bit length. -/
def sha256pad (msg : List Nat) : List Nat :=
  msg ++ 0x80 :: List.replicate ((119 - msg.length % 64) % 64) 0 ++
    natToBytesBE 8 (8 * msg.length)

def bytesToWords : List Nat → List Nat
  | b0 :: b1 :: b2 :: b3 :: rest =>
      (((b0 * 256 + b1) * 256 + b2) * 256 + b3) :: bytesToWords rest
  | _ => []

/-- Split into 64-byte blocks, with explicit fuel for structural recursion. -/
def toBlocksF : Nat → List Nat → List (List Nat)
  | 0, _ => []
  | _ + 1, [] => []
  | n + 1, b :: rest => (b :: rest).take 64 :: toBlocksF n ((b :: rest).drop 64)

def toBlocks (l : List Nat) : List (List Nat) := toBlocksF l.length l

def iterN {α : Type} (f : α → α) : Nat → α → α
  | 0, a => a
  | n + 1, a => iterN f n (f a)

/-- One message-schedule extension step: append `w[i-16] + σ₀(w[i-15]) +
w[i-7] + σ₁(w[i-2])` for `i` the current length. -/
def stepW (w : List Nat) : List Nat :=
  w ++ [w32 (w.getD (w.length - 16) 0 + smallS0 (w.getD (w.length - 15) 0) +
    w.getD (w.length - 7) 0 + smallS1 (w.getD (w.length - 2) 0))]

def sha256schedule (block : List Nat) : List Nat :=
  iterN stepW 48 (bytesToWords block)

def sha256round (kw : Nat × Nat) (st : List Nat) : List Nat :=
  match st with
  | [a, b, c, d, e, f, g, h] =>
    let t1 := w32 (h + bigS1 e + ch32 e f g + kw.1 + kw.2)
    let t2 := w32 (bigS0 a + maj32 a b c)
    [w32 (t1 + t2), a, b, c, w32 (d + t1), e, f, g]
  | _ => st

def sha256compress (h : List Nat) (block : List Nat) : List Nat :=
  let st := (sha256K.zip (sha256schedule block)).foldl
    (fun s kw => sha256round kw s) h
  (h.zip st).map (fun p => w32 (p.1 + p.2))

def sha256words (msg : List Nat) : List Nat :=
  (toBlocks (sha256pad msg)).foldl sha256compress sha256H0

def hexDigit (n : Nat) : Char := Char.ofNat (if n < 10 then 48 + n else 87 + n)

def wordHex (v : Nat) : List Char :=
  [hexDigit (v / 268435456 % 16), hexDigit (v / 16777216 % 16),
   hexDigit (v / 1048576 % 16), hexDigit (v / 65536 % 16),
   hexDigit (v / 4096 % 16), hexDigit (v / 256 % 16),
   hexDigit (v / 16 % 16), hexDigit (v % 16)]

/-- `hashlib.sha256(bytes).hexdigest()`. -/
def sha256hex (msg : List Nat) : String :=
  ⟨((sha256words msg).map wordHex).flatten⟩

/-- UTF-8 encoding of one code point. -/
def utf8EncodeChar (c : Char) : List Nat :=
  let n := c.toNat
  if n < 128 then [n]
  else if n < 2048 then [192 + n / 64, 128 + n % 64]
  else if n < 65536 then [224 + n / 4096, 128 + n / 64 % 64, 128 + n % 64]
  else [240 + n / 262144, 128 + n / 4096 % 64, 128 + n / 64 % 64, 128 + n % 64]

/-- `str.encode()`: the UTF-8 bytes of a string. -/
def utf8Encode (s : String) : List Nat := (s.data.map utf8EncodeChar).flatten

example : utf8Encode "abc" = [97, 98, 99] := by decide

example : sha256hex (utf8Encode "abc") =
    "ba7816bf8f01cfea414140de5dae2223b00361a396177a9cb410ff61f20015ad" := by decide

example : sha256hex (utf8Encode "") =
    "e3b0c44298fc1c149afbf4c8996fb92427ae41e4649b934ca495991b7852b855" := by decide

/-- Strict UTF-8 decoding, as `bytes.decode('utf-8')`: rejects overlong
encodings, surrogates, code points above U+10FFFF, stray continuation bytes
and truncated sequences. -/
def utf8Decode : List Nat → Option (List Char)
  | [] => some []
  | b :: rest =>
    if b < 128 then
      (utf8Decode rest).map (fun cs => Char.ofNat b :: cs)
    else if b < 194 then none
    else if b < 224 then
      match rest with
      | b1 :: r =>
        if 128 ≤ b1 && b1 < 192 then
          (utf8Decode r).map (fun cs => Char.ofNat ((b - 192) * 64 + (b1 - 128)) :: cs)
        else none
      | _ => none
    else if b < 240 then
      match rest with
      | b1 :: b2 :: r =>
        if ((if b == 224 then 160 else 128) ≤ b1 &&
            b1 < (if b == 237 then 160 else 192)) &&
            (128 ≤ b2 && b2 < 192) then
          (utf8Decode r).map (fun cs =>
            Char.ofNat ((b - 224) * 4096 + (b1 - 128) * 64 + (b2 - 128)) :: cs)
        else none
      | _ => none
    else if b < 245 then
      match rest with
      | b1 :: b2 :: b3 :: r =>
        if ((if b == 240 then 144 else 128) ≤ b1 &&
            b1 < (if b == 244 then 144 else 192)) &&
            (128 ≤ b2 && b2 < 192) && (128 ≤ b3 && b3 < 192) then
          (utf8Decode r).map (fun cs =>
            Char.ofNat ((b - 240) * 262144 + (b1 - 128) * 4096 +
              (b2 - 128) * 64 + (b3 - 128)) :: cs)
        else none
      | _ => none
    else none

example : utf8Decode [104, 105] = some ['h', 'i'] := by decide
example : utf8Decode [0xff] = none := by decide
example : utf8Decode [0xc3, 0xa9] = some ['é'] := by decide
example : utf8Decode [0xc0, 0xaf] = none := by decide
example : utf8Decode [0xed, 0xa0, 0x80] = none := by decide
example : utf8Decode [0xe2, 0x82, 0xac] = some ['€'] := by decide
example : utf8Decode [0xc3] = none := by decide

/-! ## The data model and the three loaders -/

/-- The `{"doc_id": ..., "content": ...}` record returned by every
`load_data`. -/
structure Document where
  doc_id : String
  content : String
deriving DecidableEq

namespace PdfFileLoader

/-- `PdfFileLoader.clean_string` (src/main.py lines 43-46). -/
def clean_string (text : String) : String := cleanStr text

/-- `PdfFileLoader.load_data` (src/main.py lines 27-41).  `pages` is the list
of `page.get_text("text")` results of the opened document in page order; the
PyMuPDF byte-stream parsing that produces it is external.  Each page is
cleaned, and the pages are joined with `" ".join`, hashed, and returned. -/
def load_data (pages : List String) : Document :=
  let all_content := pages.map clean_string
  { doc_id := sha256hex (utf8Encode (String.intercalate " " all_content)),
    content := String.intercalate " " all_content }

end PdfFileLoader

namespace TextFileLoader

/-- `TextFileLoader.clean_string` (src/main.py lines 59-62). -/
def clean_string (text : String) : String := cleanStr text

/-- `TextFileLoader.load_data` (src/main.py lines 50-57): decode the uploaded
bytes as UTF-8 (`none` models the `UnicodeDecodeError` raise), clean, hash. -/
def load_data (bs : List Nat) : Option Document :=
  (utf8Decode bs).map (fun cs =>
    let content := clean_string ⟨cs⟩
    { doc_id := sha256hex (utf8Encode content), content := content })

end TextFileLoader

namespace UrlLoader

/-- `UrlLoader.clean_string` (src/main.py lines 77-80). -/
def clean_string (text : String) : String := cleanStr text

/-- `UrlLoader.load_data` (src/main.py lines 66-75) after its external steps:
`pageText` is `soup.get_text()` for the fetched response body.  The loader
cleans it, hashes it, and returns the record. -/
def load_data (pageText : String) : Document :=
  let content := clean_string pageText
  { doc_id := sha256hex (utf8Encode content), content := content }

end UrlLoader

/-! ## The generation adapter -/

/-- The `MCQ` pydantic model (src/main.py lines 17-20); also the shape of the
question objects consumed by `format_mcqs`. -/
structure MCQ where
  question : String
  options : List String
  correct_answer : String
deriving DecidableEq

/-- The object returned by the external `qna_engine.generate_mcq`: it exposes
a `questions` field holding the generated MCQs. -/
structure EngineResult where
  questions : List MCQ
deriving DecidableEq

/-- The external engine's keyword interface:
`topic`, `num`, `difficulty_level`, `prompt_template`. -/
def Engine : Type := String → Nat → String → String → EngineResult

/-- The default prompt template of `generate_mcq` (src/main.py lines 85-91),
byte for byte. -/
def default_prompt_template : String :=
  "\n        Generate {num} multiple-choice question (MCQ) based on the given topic and level.\n        Provide the question, four answer options, and the correct answer.\n\n        Topic: {topic} \n        Difficulty Level: {difficulty_level}\n        "

/-- `generate_mcq` (src/main.py lines 83-100): substitute the default template
when the caller passes none, then delegate to the external engine.  Note the
source forwards `topic`, `num`, `difficulty_level` and `prompt_template` but
not `learning_objective`. -/
def generate_mcq (engine : Engine) (topic : String) (num : Nat)
    (learning_objective : String) (difficulty_level : String)
    (prompt_template : Option String) : EngineResult :=
  let pt := match prompt_template with
    | none => default_prompt_template
    | some t => t
  engine topic num difficulty_level pt

/-- The possible sources handed to `generate_mcqs_from_data`, carrying what
the respective loader consumes (for PDF and URL, the result of the external
extraction step). -/
inductive Source where
  | pdfFile (pages : List String)
  | textFile (bs : List Nat)
  | url (pageText : String)
deriving DecidableEq

/-- Errors raised inside `generate_mcqs_from_data`: the locally raised
`ValueError` for an unsupported source type, and errors propagated out of the
loaders. -/
inductive AppError where
  | configError (msg : String)
  | loadError (msg : String)
deriving DecidableEq

/-- `generate_mcqs_from_data` (src/main.py lines 103-118): dispatch on
`source_type`, load, then return the engine's result unchanged. -/
def generate_mcqs_from_data (engine : Engine) (source : Source)
    (source_type : String) (num : Nat) (learning_objective : String)
    (difficulty_level : String) (prompt_template : Option String) :
    Except AppError EngineResult :=
  if source_type = "pdf" then
    match source with
    | .pdfFile pages =>
      let data := PdfFileLoader.load_data pages
      .ok (generate_mcq engine data.content num learning_objective
        difficulty_level prompt_template)
    | _ => .error (.loadError "pdf loader applied to a non-pdf source")
  else if source_type = "text" then
    match source with
    | .textFile bs =>
      match TextFileLoader.load_data bs with
      | some data =>
        .ok (generate_mcq engine data.content num learning_objective
          difficulty_level prompt_template)
      | none => .error (.loadError "invalid utf-8 byte stream")
    | _ => .error (.loadError "text loader applied to a non-text source")
  else if source_type = "url" then
    match source with
    | .url pageText =>
      let data := UrlLoader.load_data pageText
      .ok (generate_mcq engine data.content num learning_objective
        difficulty_level prompt_template)
    | _ => .error (.loadError "url loader applied to a non-url source")
  else
    .error (.configError "Unsupported source type. Please use 'pdf', 'text', or 'url'.")

/-! ## The display formatter -/

/-- The inner option loop of `format_mcqs`: `for j, option in
enumerate(mcq.options, 1)` emitting `f"   {chr(96+j)}) {option}\n"`. -/
def formatOptions (j : Nat) : List String → String
  | [] => ""
  | o :: rest =>
    "   " ++ String.mk [Char.ofNat (96 + j)] ++ ") " ++ o ++ "\n" ++
      formatOptions (j + 1) rest

/-- The outer loop of `format_mcqs`: `for i, mcq in enumerate(mcqs, 1)`. -/
def formatMcqsFrom (i : Nat) : List MCQ → String
  | [] => ""
  | m :: rest =>
    toString i ++ ". " ++ m.question ++ "\n" ++ formatOptions 1 m.options ++
      "   Answer: " ++ m.correct_answer ++ "\n\n" ++ formatMcqsFrom (i + 1) rest

/-- `format_mcqs` (src/main.py lines 121-128). -/
def format_mcqs (mcqs : List MCQ) : String := formatMcqsFrom 1 mcqs

/-- Concatenation of a list of strings, in order. -/
def strConcat : List String → String
  | [] => ""
  | s :: rest => s ++ strConcat rest

/-- One question rendered as the spec describes the formatter's output: the
1-based number and the question text on one line, one line per option
lettered from `a)` in option order, then the labelled correct answer, then a
blank separator line. -/
def renderQuestion (n : Nat) (m : MCQ) : String :=
  toString n ++ ". " ++ m.question ++ "\n" ++
  strConcat (m.options.enum.map (fun p =>
    "   " ++ String.mk [Char.ofNat (97 + p.1)] ++ ") " ++ p.2 ++ "\n")) ++
  "   Answer: " ++ m.correct_answer ++ "\n\n"

/-! ## Name resolution in `main`'s URL branch -/

/-- The local names of the `main` function (every name assigned somewhere in
its body, src/main.py lines 131-165). -/
def mainLocals : List String :=
  ["api_key", "source_type", "num_mcqs", "difficulty_level", "uploaded_file",
   "url", "mcqs", "formatted_mcqs"]

/-- The module-level names of src/main.py: imported names and top-level
definitions. -/
def moduleGlobals : List String :=
  ["hashlib", "fitz", "re", "requests", "BeautifulSoup", "BaseModel", "List",
   "qna_engine", "os", "st", "load_dotenv", "MCQ", "MCQList", "PdfFileLoader",
   "TextFileLoader", "UrlLoader", "generate_mcq", "generate_mcqs_from_data",
   "format_mcqs", "main"]

/-- Name resolution inside `main`: locals, then module globals.  (No Python
builtin is named like any identifier this model looks up, so builtins are
omitted.) -/
def resolvable (n : String) : Bool :=
  mainLocals.contains n || moduleGlobals.contains n

/-- A Python-level failure of the UI action: a `NameError` raised while
evaluating the call's arguments, or an error raised inside the called
functions. -/
inductive PyError where
  | nameError (n : String)
  | appError (e : AppError)
deriving DecidableEq

/-- The `st.button("Generate MCQs")` action of `main`'s URL branch
(src/main.py lines 162-165).  CPython evaluates the arguments of
`generate_mcqs_from_data(url, 'url', num=num_mcqs,
learning_objective=learning_objective, difficulty_level=difficulty_level)`
before entering the call, resolving each argument name; an unresolvable name
raises `NameError` and nothing is rendered.  `pageText` stands for the text
the URL loader would extract for the entered URL; the value passed in the
(unreachable) case that `learning_objective` resolves is immaterial and
written `""`. -/
def urlBranchAction (engine : Engine) (pageText : String) (num_mcqs : Nat)
    (difficulty_level : String) : Except PyError String :=
  if resolvable "url" = false then .error (.nameError "url")
  else if resolvable "num_mcqs" = false then .error (.nameError "num_mcqs")
  else if resolvable "learning_objective" = false then
    .error (.nameError "learning_objective")
  else if resolvable "difficulty_level" = false then
    .error (.nameError "difficulty_level")
  else
    match generate_mcqs_from_data engine (.url pageText) "url" num_mcqs ""
        difficulty_level none with
    | .ok r => .ok (format_mcqs r.questions)
    | .error e => .error (.appError e)

/-! ## Formatter characterization -/

theorem strConcat_cons (s : String) (rest : List String) :
    strConcat (s :: rest) = s ++ strConcat rest := rfl

theorem formatOptions_eq :
    ∀ (opts : List String) (j : Nat),
      formatOptions (j + 1) opts =
        strConcat ((List.enumFrom j opts).map (fun p =>
          "   " ++ String.mk [Char.ofNat (97 + p.1)] ++ ") " ++ p.2 ++ "\n")) := by
  intro opts
  induction opts with
  | nil => intro j; rfl
  | cons o rest ih =>
    intro j
    rw [List.enumFrom_cons, List.map_cons, strConcat_cons]
    calc formatOptions (j + 1) (o :: rest)
        = "   " ++ String.mk [Char.ofNat (96 + (j + 1))] ++ ") " ++ o ++ "\n" ++
            formatOptions (j + 1 + 1) rest := rfl
      _ = "   " ++ String.mk [Char.ofNat (97 + j)] ++ ") " ++ o ++ "\n" ++
            strConcat ((List.enumFrom (j + 1) rest).map (fun p =>
              "   " ++ String.mk [Char.ofNat (97 + p.1)] ++ ") " ++ p.2 ++ "\n")) := by
          rw [ih (j + 1), show 96 + (j + 1) = 97 + j from by omega]
      _ = ("   " ++ String.mk [Char.ofNat (97 + j)] ++ ") " ++ o ++ "\n") ++
            strConcat ((List.enumFrom (j + 1) rest).map (fun p =>
              "   " ++ String.mk [Char.ofNat (97 + p.1)] ++ ") " ++ p.2 ++ "\n")) := by
          simp [String.append_assoc]

theorem formatMcqsFrom_eq :
    ∀ (l : List MCQ) (k : Nat),
      formatMcqsFrom (k + 1) l =
        strConcat ((List.enumFrom k l).map (fun p => renderQuestion (p.1 + 1) p.2)) := by
  intro l
  induction l with
  | nil => intro k; rfl
  | cons m rest ih =>
    intro k
    rw [List.enumFrom_cons, List.map_cons, strConcat_cons]
    calc formatMcqsFrom (k + 1) (m :: rest)
        = toString (k + 1) ++ ". " ++ m.question ++ "\n" ++
            formatOptions (0 + 1) m.options ++
            "   Answer: " ++ m.correct_answer ++ "\n\n" ++
            formatMcqsFrom (k + 1 + 1) rest := rfl
      _ = toString (k + 1) ++ ". " ++ m.question ++ "\n" ++
            strConcat ((List.enumFrom 0 m.options).map (fun p =>
              "   " ++ String.mk [Char.ofNat (97 + p.1)] ++ ") " ++ p.2 ++ "\n")) ++
            "   Answer: " ++ m.correct_answer ++ "\n\n" ++
            strConcat ((List.enumFrom (k + 1) rest).map (fun p =>
              renderQuestion (p.1 + 1) p.2)) := by
          rw [formatOptions_eq m.options 0, ih (k + 1)]
      _ = renderQuestion (k + 1) m ++
            strConcat ((List.enumFrom (k + 1) rest).map (fun p =>
              renderQuestion (p.1 + 1) p.2)) := by
          simp [renderQuestion, List.enum, String.append_assoc]

/-! ## Substring containment (executable) -/

def startsWithSeq : List Char → List Char → Bool
  | [], _ => true
  | _ :: _, [] => false
  | a :: as, b :: bs => a == b && startsWithSeq as bs

def hasSeq (pat : List Char) : List Char → Bool
  | [] => startsWithSeq pat []
  | c :: cs => startsWithSeq pat (c :: cs) || hasSeq pat cs

/-- `pat` occurs as a contiguous substring of `s`. -/
def containsTok (s pat : String) : Bool := hasSeq pat.data s.data

/-! ## The claims -/

/-- Claim C1 (counterexample): the PDF loader's content does NOT always equal
the Normalizer applied to the concatenation of the page texts.  With page
texts `"a"` and `"b"`, the code produces `"a b"` (it cleans each page and
joins with a single space), while the claimed expression gives `"ab"`. -/
theorem claim_C1_counterexample :
    ¬ ((PdfFileLoader.load_data ["a", "b"]).content =
        PdfFileLoader.clean_string (String.join ["a", "b"])) := by decide

/-- Claim C1 (amended): for every page-text list of a PDF byte stream that
opens as a valid paginated document, the loader's content is the single-space
join of the per-page normalized texts (not the normalization of the raw page
concatenation), and the doc_id is the SHA-256 fingerprint of exactly that
returned content. -/
theorem claim_C1_amended (pages : List String) :
    (PdfFileLoader.load_data pages).content =
      String.intercalate " " (pages.map normalizeSpec) ∧
    (PdfFileLoader.load_data pages).doc_id =
      sha256hex (utf8Encode ((PdfFileLoader.load_data pages).content)) := by
  constructor
  · show String.intercalate " " (pages.map PdfFileLoader.clean_string) = _
    rw [show PdfFileLoader.clean_string = normalizeSpec from
      funext cleanStr_eq_normalizeSpec]
  · rfl

/-- Claim C2: the Normalizer (each loader's `clean_string`, all three
identical) is total and maps every string to its maximal non-whitespace runs
joined by single spaces — i.e. every maximal whitespace run collapses to one
space and the ends are trimmed; in particular `"a   b\n\tc"` maps to
`"a b c"`. -/
theorem claim_C2 :
    (∀ s : String, PdfFileLoader.clean_string s = normalizeSpec s) ∧
    (∀ s : String, TextFileLoader.clean_string s = PdfFileLoader.clean_string s) ∧
    (∀ s : String, UrlLoader.clean_string s = PdfFileLoader.clean_string s) ∧
    PdfFileLoader.clean_string "a   b\n\tc" = "a b c" :=
  ⟨cleanStr_eq_normalizeSpec, fun _ => rfl, fun _ => rfl, by decide⟩

/-- Claim C3: the Normalizer is idempotent — applying `clean_string` twice
equals applying it once, for every input string and every loader variant. -/
theorem claim_C3 (s : String) :
    PdfFileLoader.clean_string (PdfFileLoader.clean_string s) =
      PdfFileLoader.clean_string s ∧
    TextFileLoader.clean_string (TextFileLoader.clean_string s) =
      TextFileLoader.clean_string s ∧
    UrlLoader.clean_string (UrlLoader.clean_string s) =
      UrlLoader.clean_string s :=
  ⟨cleanStr_idempotent s, cleanStr_idempotent s, cleanStr_idempotent s⟩

/-- Claim C4: every record returned by any of the three loaders has
`doc_id` equal to the hexadecimal SHA-256 digest of the UTF-8 encoding of its
`content`, and identical content always yields an identical `doc_id`. -/
theorem claim_C4 (pages : List String) (bs : List Nat) (pageText : String) :
    (PdfFileLoader.load_data pages).doc_id =
      sha256hex (utf8Encode ((PdfFileLoader.load_data pages).content)) ∧
    (∀ d : Document, TextFileLoader.load_data bs = some d →
      d.doc_id = sha256hex (utf8Encode d.content)) ∧
    (UrlLoader.load_data pageText).doc_id =
      sha256hex (utf8Encode ((UrlLoader.load_data pageText).content)) ∧
    (∀ d e : Document, d.doc_id = sha256hex (utf8Encode d.content) →
      e.doc_id = sha256hex (utf8Encode e.content) →
      d.content = e.content → d.doc_id = e.doc_id) := by
  refine ⟨rfl, ?_, rfl, ?_⟩
  · intro d hd
    cases hdec : utf8Decode bs with
    | none =>
      rw [TextFileLoader.load_data, hdec] at hd
      cases hd
    | some cs =>
      rw [TextFileLoader.load_data, hdec] at hd
      simp only [Option.map_some'] at hd
      cases Option.some.inj hd
      rfl
  · intro d e h1 h2 h3
    rw [h1, h2, h3]

theorem claim_C4_witness :
    (PdfFileLoader.load_data ["p"]).doc_id =
      sha256hex (utf8Encode ((PdfFileLoader.load_data ["p"]).content)) ∧
    (Document.mk (sha256hex (utf8Encode "h")) "h").doc_id =
      sha256hex (utf8Encode ((Document.mk (sha256hex (utf8Encode "h")) "h").content)) ∧
    (UrlLoader.load_data "u").doc_id =
      sha256hex (utf8Encode ((UrlLoader.load_data "u").content)) ∧
    (Document.mk (sha256hex (utf8Encode "h")) "h").doc_id =
      (Document.mk (sha256hex (utf8Encode "h")) "h").doc_id := by
  have h := claim_C4 ["p"] [104] "u"
  refine ⟨h.1, ?_, h.2.2.1, ?_⟩
  · exact h.2.1 (Document.mk (sha256hex (utf8Encode "h")) "h") (by decide)
  · exact h.2.2.2 _ _ rfl rfl rfl

/-- Claim C5: `generate_mcqs_from_data` raises the configuration `ValueError`
for every `source_type` other than `pdf`/`text`/`url` (independently of the
engine and source, so no loading and no generation happens), and never raises
it for the three supported values. -/
theorem claim_C5 (engine : Engine) (source : Source) (source_type : String)
    (num : Nat) (lo dl : String) (pt : Option String) :
    (source_type ≠ "pdf" → source_type ≠ "text" → source_type ≠ "url" →
      generate_mcqs_from_data engine source source_type num lo dl pt =
        .error (.configError
          "Unsupported source type. Please use 'pdf', 'text', or 'url'.")) ∧
    ((source_type = "pdf" ∨ source_type = "text" ∨ source_type = "url") →
      ∀ msg, generate_mcqs_from_data engine source source_type num lo dl pt ≠
        .error (.configError msg)) := by
  constructor
  · intro h1 h2 h3
    unfold generate_mcqs_from_data
    rw [if_neg h1, if_neg h2, if_neg h3]
  · rintro (h | h | h) msg <;> subst h
    · cases source <;> simp [generate_mcqs_from_data]
    · cases source with
      | textFile bs =>
        cases hload : TextFileLoader.load_data bs <;>
          simp [generate_mcqs_from_data, hload]
      | pdfFile pages => simp [generate_mcqs_from_data]
      | url p => simp [generate_mcqs_from_data]
    · cases source <;> simp [generate_mcqs_from_data]

theorem claim_C5_witness :
    generate_mcqs_from_data (fun _ _ _ _ => EngineResult.mk []) (Source.url "x")
      "xyz" 1 "" "Easy" none =
      .error (.configError
        "Unsupported source type. Please use 'pdf', 'text', or 'url'.") ∧
    generate_mcqs_from_data (fun _ _ _ _ => EngineResult.mk []) (Source.url "x")
      "url" 1 "" "Easy" none ≠
      .error (.configError "anything") := by
  constructor
  · exact (claim_C5 (fun _ _ _ _ => EngineResult.mk []) (Source.url "x")
      "xyz" 1 "" "Easy" none).1 (by decide) (by decide) (by decide)
  · exact (claim_C5 (fun _ _ _ _ => EngineResult.mk []) (Source.url "x")
      "url" 1 "" "Easy" none).2 (Or.inr (Or.inr rfl)) "anything"

/-- Claim C6: the text loader decodes its byte stream as UTF-8 and returns
the normalized, fingerprinted record; on every byte stream that is not valid
UTF-8 it fails and returns no record. -/
theorem claim_C6 (bs : List Nat) :
    (∀ cs : List Char, utf8Decode bs = some cs →
      TextFileLoader.load_data bs = some
        (Document.mk
          (sha256hex (utf8Encode (TextFileLoader.clean_string (String.mk cs))))
          (TextFileLoader.clean_string (String.mk cs)))) ∧
    (utf8Decode bs = none → TextFileLoader.load_data bs = none) := by
  constructor
  · intro cs h
    rw [TextFileLoader.load_data, h]
    rfl
  · intro h
    rw [TextFileLoader.load_data, h]
    rfl

theorem claim_C6_witness :
    TextFileLoader.load_data [104] =
      some (Document.mk (sha256hex (utf8Encode "h")) "h") ∧
    TextFileLoader.load_data [255] = none := by
  constructor
  · have h := (claim_C6 [104]).1 ['h'] (by decide)
    rw [show TextFileLoader.clean_string (String.mk ['h']) = "h" from by decide] at h
    exact h
  · exact (claim_C6 [255]).2 (by decide)

/-- Claim C7: the generation adapter is a pass-through — for each supported
source type, `generate_mcqs_from_data` returns exactly the object produced by
the engine call on the loaded content, with the resolved prompt template,
unmodified. -/
theorem claim_C7 (engine : Engine) (pages : List String) (bs : List Nat)
    (pageText : String) (num : Nat) (lo dl : String) (pt : Option String) :
    generate_mcqs_from_data engine (.pdfFile pages) "pdf" num lo dl pt =
      .ok (engine (PdfFileLoader.load_data pages).content num dl
        (pt.getD default_prompt_template)) ∧
    (∀ d : Document, TextFileLoader.load_data bs = some d →
      generate_mcqs_from_data engine (.textFile bs) "text" num lo dl pt =
        .ok (engine d.content num dl (pt.getD default_prompt_template))) ∧
    generate_mcqs_from_data engine (.url pageText) "url" num lo dl pt =
      .ok (engine (UrlLoader.load_data pageText).content num dl
        (pt.getD default_prompt_template)) := by
  refine ⟨?_, ?_, ?_⟩
  · cases pt <;> rfl
  · intro d hd
    cases pt <;> simp [generate_mcqs_from_data, hd, generate_mcq, Option.getD]
  · cases pt <;> rfl

theorem claim_C7_witness :
    generate_mcqs_from_data
      (fun t n dl p => EngineResult.mk [MCQ.mk t [dl, p] (toString n)])
      (Source.textFile [104]) "text" 2 "" "Easy" (some "T") =
      .ok (EngineResult.mk [MCQ.mk "h" ["Easy", "T"] "2"]) := by
  have h := (claim_C7
    (fun t n dl p => EngineResult.mk [MCQ.mk t [dl, p] (toString n)])
    [] [104] "" 2 "" "Easy" (some "T")).2.1
    (Document.mk (sha256hex (utf8Encode "h")) "h") (by decide)
  exact h

/-- Claim C8: with no caller-supplied template, `generate_mcq` invokes the
engine with the default template, which embeds the `{num}`, `{topic}` and
`{difficulty_level}` placeholders; a caller-supplied template is passed
through unchanged. -/
theorem claim_C8 (engine : Engine) (topic : String) (num : Nat)
    (lo dl t : String) :
    generate_mcq engine topic num lo dl none =
      engine topic num dl default_prompt_template ∧
    generate_mcq engine topic num lo dl (some t) = engine topic num dl t ∧
    containsTok default_prompt_template "{num}" = true ∧
    containsTok default_prompt_template "{topic}" = true ∧
    containsTok default_prompt_template "{difficulty_level}" = true :=
  ⟨rfl, rfl, by decide, by decide, by decide⟩

/-- Claim C9: the formatter renders each question as a 1-based numbered line
with the question text, one line per option lettered from `a)` in option
order, and a labelled `Answer:` line, with a blank line after each question
block. -/
theorem claim_C9 (mcqs : List MCQ) :
    format_mcqs mcqs =
      strConcat (mcqs.enum.map (fun p => renderQuestion (p.1 + 1) p.2)) := by
  show formatMcqsFrom (0 + 1) mcqs = _
  rw [formatMcqsFrom_eq mcqs 0]
  rfl

/-- Claim C10: in `main`'s URL branch the generate action always fails with a
`NameError` on `learning_objective` — that name is neither a local of `main`
nor a module global — before any MCQs are generated or rendered; hence the
URL path of the UI can never render MCQs. -/
theorem claim_C10 (engine : Engine) (pageText : String) (num_mcqs : Nat)
    (difficulty_level : String) :
    resolvable "learning_objective" = false ∧
    urlBranchAction engine pageText num_mcqs difficulty_level =
      .error (.nameError "learning_objective") := by
  exact ⟨by decide, rfl⟩
